import Mathlib

/-!
Shallow embedding of the air-quality fusion-and-forecast pipeline
(`server/utils/aqi_calculator.py`, `server/api/airquality.py`,
`server/services/ml_service.py`, `server/services/cache_service.py`).

Conventions of the embedding:
* Python floats become `ℚ` (the constants involved are exact decimals),
  machine ints become `ℤ` or `ℕ`.
* Python `int(x)` (truncation toward zero) is `pyInt`; Python `round(x)`
  (round half to even) is `pyRound`.
* Python dicts become association lists `List (String × α)` with
  insertion-order preserving update (`dictInsert`) and deletion
  (`dictErase`), matching CPython dict semantics.
* Timestamps are modelled as whole hours since an epoch (`ℕ`): the code
  only ever adds whole-hour `timedelta`s to `datetime.now()`, so
  hour-of-day arithmetic is exact; wall-clock seconds in the cache are `ℚ`.
* The sklearn model of `ml_service.py` is opaque; the model path is
  embedded with an oracle `Option (ℕ → ℚ)` giving the model's per-hour
  prediction, `none` standing for "the model path raised somewhere"
  (which the code catches, falling back to `_simple_forecast`).  The
  Gaussian noise of `_simple_forecast` is likewise an explicit oracle
  `ℕ → ℚ`.
-/

/-- Python `int()` on a float/rational: truncation toward zero. -/
def pyInt (q : ℚ) : ℤ := if 0 ≤ q then ⌊q⌋ else ⌈q⌉

/-- Python `round()` to an integer: round half to even. -/
def pyRound (q : ℚ) : ℤ :=
  if Int.fract q < 1/2 then ⌊q⌋
  else if 1/2 < Int.fract q then ⌊q⌋ + 1
  else if ⌊q⌋ % 2 = 0 then ⌊q⌋ else ⌊q⌋ + 1

/-! ## Association-list model of Python dicts -/

/-- `d.get(k)` lookup returning `none` when the key is absent. -/
def dictLookup {α : Type} : List (String × α) → String → Option α
  | [], _ => none
  | p :: rest, k => if p.1 = k then some p.2 else dictLookup rest k

/-- `d[k] = v`: replace in place when the key exists, else append
(CPython dicts preserve insertion order). -/
def dictInsert {α : Type} : List (String × α) → String → α → List (String × α)
  | [], k, v => [(k, v)]
  | p :: rest, k, v => if p.1 = k then (k, v) :: rest else p :: dictInsert rest k v

/-- `del d[k]`: remove the (first) entry with the given key. -/
def dictErase {α : Type} : List (String × α) → String → List (String × α)
  | [], _ => []
  | p :: rest, k => if p.1 = k then rest else p :: dictErase rest k

/-- Erasure on the key list alone, mirroring `dictErase`. -/
def keyErase : List String → String → List String
  | [], _ => []
  | a :: rest, k => if a = k then rest else a :: keyErase rest k

/-! ## AQI calculator (`server/utils/aqi_calculator.py`) -/

/-- One breakpoint row `(bp_low, bp_high, aqi_low, aqi_high)`. -/
structure Segment where
  bpLow : ℚ
  bpHigh : ℚ
  aqiLow : ℤ
  aqiHigh : ℤ
  deriving DecidableEq

def pm25Table : List Segment :=
  [⟨0, 12, 0, 50⟩, ⟨12.1, 35.4, 51, 100⟩, ⟨35.5, 55.4, 101, 150⟩,
   ⟨55.5, 150.4, 151, 200⟩, ⟨150.5, 250.4, 201, 300⟩, ⟨250.5, 500.4, 301, 500⟩]

def pm10Table : List Segment :=
  [⟨0, 54, 0, 50⟩, ⟨55, 154, 51, 100⟩, ⟨155, 254, 101, 150⟩,
   ⟨255, 354, 151, 200⟩, ⟨355, 424, 201, 300⟩, ⟨425, 604, 301, 500⟩]

def o3Table : List Segment :=
  [⟨0, 54, 0, 50⟩, ⟨55, 70, 51, 100⟩, ⟨71, 85, 101, 150⟩,
   ⟨86, 105, 151, 200⟩, ⟨106, 200, 201, 300⟩]

def no2Table : List Segment :=
  [⟨0, 53, 0, 50⟩, ⟨54, 100, 51, 100⟩, ⟨101, 360, 101, 150⟩,
   ⟨361, 649, 151, 200⟩, ⟨650, 1249, 201, 300⟩, ⟨1250, 2049, 301, 500⟩]

def so2Table : List Segment :=
  [⟨0, 35, 0, 50⟩, ⟨36, 75, 51, 100⟩, ⟨76, 185, 101, 150⟩,
   ⟨186, 304, 151, 200⟩, ⟨305, 604, 201, 300⟩, ⟨605, 1004, 301, 500⟩]

def coTable : List Segment :=
  [⟨0, 4.4, 0, 50⟩, ⟨4.5, 9.4, 51, 100⟩, ⟨9.5, 12.4, 101, 150⟩,
   ⟨12.5, 15.4, 151, 200⟩, ⟨15.5, 30.4, 201, 300⟩, ⟨30.5, 50.4, 301, 500⟩]

/-- The `breakpoints` dict of `calculate_aqi`. -/
def breakpointTables : List (String × List Segment) :=
  [("pm25", pm25Table), ("pm10", pm10Table), ("o3", o3Table),
   ("no2", no2Table), ("so2", so2Table), ("co", coTable)]

/-- The loop `for bp_low, bp_high, aqi_low, aqi_high in breakpoints[pollutant]`
with its `if bp_low <= concentration <= bp_high: ...; break`. -/
def findSegment (c : ℚ) : List Segment → Option Segment
  | [] => none
  | s :: rest => if s.bpLow ≤ c ∧ c ≤ s.bpHigh then some s else findSegment c rest

/-- The linear interpolation
`((aqi_high - aqi_low) / (bp_high - bp_low)) * (concentration - bp_low) + aqi_low`. -/
def interpAqi (s : Segment) (c : ℚ) : ℚ :=
  (((s.aqiHigh - s.aqiLow : ℤ) : ℚ) / (s.bpHigh - s.bpLow)) * (c - s.bpLow) + (s.aqiLow : ℚ)

/-- `breakpoints[pollutant][-1][1]`: the last row's `bp_high`. -/
def lastHigh (table : List Segment) : ℚ := (table.getLast?.map Segment.bpHigh).getD 0

/-- The first row's `bp_low` (the lowest segment's lower bound). -/
def lowestLow (table : List Segment) : ℚ := (table.head?.map Segment.bpLow).getD 0

/-- Per-pollutant sub-index: `int(round(...))` of the interpolation when a row
contains the concentration, `500` when it exceeds the last row's upper bound
(the `for ... else` branch), and no contribution otherwise. -/
def subIndex (table : List Segment) (c : ℚ) : Option ℤ :=
  match findSegment c table with
  | some s => some (pyRound (interpAqi s c))
  | none => if lastHigh table < c then some 500 else none

/-- Contribution of one `pollutants` entry to `max_aqi`: skip unknown
pollutants (`continue`) and `None` values (`continue`), else `subIndex`. -/
def contrib (p : String × Option ℚ) : Option ℤ :=
  match dictLookup breakpointTables p.1 with
  | none => none
  | some table =>
    match p.2 with
    | none => none
    | some c => subIndex table c

/-- One iteration of the `max_aqi = max(max_aqi, ...)` accumulation. -/
def maxStep (m : ℤ) (p : String × Option ℚ) : ℤ :=
  match contrib p with
  | some s => max m s
  | none => m

/-- The `max_aqi` accumulator over the whole pollutant dict. -/
def maxAqi (pollutants : List (String × Option ℚ)) : ℤ :=
  pollutants.foldl maxStep 0

/-- `calculate_aqi`: `50` for an empty dict, else the accumulated maximum
sub-index with `return max(max_aqi, 50) if max_aqi > 0 else 50`. -/
def calculate_aqi (pollutants : List (String × Option ℚ)) : ℤ :=
  if pollutants = [] then 50
  else if 0 < maxAqi pollutants then max (maxAqi pollutants) 50 else 50

/-- `get_aqi_category` of `server/api/airquality.py`. -/
def get_aqi_category (aqi : ℤ) : String :=
  if aqi ≤ 50 then "Good"
  else if aqi ≤ 100 then "Moderate"
  else if aqi ≤ 150 then "Unhealthy for Sensitive Groups"
  else if aqi ≤ 200 then "Unhealthy"
  else if aqi ≤ 300 then "Very Unhealthy"
  else "Hazardous"

/-! ## Health advisory generator (`get_health_advice`) -/

/-- The weather dict as consumed through `.get(...)` with per-call defaults:
each field may be absent. -/
structure WeatherDict where
  precip_mm : Option ℚ
  wind_speed_ms : Option ℚ
  temp_c : Option ℚ
  humidity : Option ℚ
  source : Option (List String)
  deriving DecidableEq

/-- The empty weather dict `{}`. -/
def WeatherDict.empty : WeatherDict := ⟨none, none, none, none, none⟩

/-- The four fixed advice profiles. -/
structure Profiles where
  children : String
  asthma : String
  elderly : String
  athletes : String
  deriving DecidableEq

structure HealthAdvice where
  general : String
  profiles : Profiles
  deriving DecidableEq

/-- Band selection for the `general` string of `get_health_advice`. -/
def baseGeneral (aqi : ℤ) : String :=
  if aqi ≤ 50 then "Air quality is good. Perfect day for outdoor activities."
  else if aqi ≤ 100 then
    "Air quality is moderate. Sensitive individuals may experience minor symptoms."
  else if aqi ≤ 150 then "Sensitive groups should limit prolonged outdoor exertion."
  else if aqi ≤ 200 then "Everyone should limit prolonged outdoor exertion."
  else if aqi ≤ 300 then "Everyone should avoid all outdoor exertion."
  else "Health warning: everyone should stay indoors and avoid all outdoor activities."

/-- Band selection for the `profiles` dict of `get_health_advice`. -/
def baseProfiles (aqi : ℤ) : Profiles :=
  if aqi ≤ 50 then
    ⟨"Great day for outdoor play and sports.",
     "Normal outdoor activities are fine.",
     "Enjoy outdoor activities as usual.",
     "Excellent conditions for training and competition."⟩
  else if aqi ≤ 100 then
    ⟨"Outdoor activities are generally safe, but watch for any symptoms.",
     "Consider carrying your rescue inhaler during outdoor activities.",
     "Take breaks during prolonged outdoor activities.",
     "You may experience slight decrease in performance during intense workouts."⟩
  else if aqi ≤ 150 then
    ⟨"Limit intense outdoor activities. Choose indoor alternatives when possible.",
     "Avoid prolonged outdoor exertion. Have your inhaler readily available.",
     "Reduce time spent outdoors, especially during midday hours.",
     "Consider indoor training. If outdoors, reduce intensity and duration."⟩
  else if aqi ≤ 200 then
    ⟨"Avoid outdoor activities. Choose indoor play and exercise.",
     "Stay indoors as much as possible. Have emergency medications available.",
     "Minimize outdoor exposure. Consider staying indoors with air filtration.",
     "Move workouts indoors. Avoid outdoor training."⟩
  else if aqi ≤ 300 then
    ⟨"Stay indoors. Keep windows closed and use air purifiers if available.",
     "Stay indoors with windows and doors closed. Avoid all outdoor activities.",
     "Remain indoors. Consider using air purifiers and avoiding physical exertion.",
     "Cancel outdoor training. Even indoor activities should be light."⟩
  else
    ⟨"Emergency conditions: keep children indoors with air filtration if possible.",
     "Emergency: stay indoors, have medications ready, seek medical attention if symptoms worsen.",
     "Emergency: stay indoors, minimize physical activity, seek medical care if needed.",
     "Emergency: cancel all activities. Even light indoor exercise should be avoided."⟩

/-- `" Strong winds may help disperse pollutants."` -/
def windNote : String := " Strong winds may help disperse pollutants."

/-- `" Rain is helping to clear the air."` -/
def rainNote : String := " Rain is helping to clear the air."

/-- `get_health_advice(aqi, weather_data)`: band-based texts, then
`general += windNote` when `wind_speed > 5.0` and `general += rainNote`
when `precipitation > 2.0` (`.get` defaults are `0`). -/
def get_health_advice (aqi : ℤ) (weather_data : WeatherDict) : HealthAdvice :=
  let wind_speed := weather_data.wind_speed_ms.getD 0
  let precipitation := weather_data.precip_mm.getD 0
  let general := baseGeneral aqi
  let general1 := if 5 < wind_speed then general ++ windNote else general
  let general2 := if 2 < precipitation then general1 ++ rainNote else general1
  ⟨general2, baseProfiles aqi⟩

/-! ## Pollutant merge (`server/api/airquality.py`, lines 91–115) -/

/-- One merged pollutant entry `{"value": ..., "unit": ..., "source": [...]}`. -/
structure PollutantData where
  value : ℚ
  unit : String
  source : List String
  deriving DecidableEq

/-- The TEMPO loop: each non-`None` satellite pollutant becomes an entry
tagged `["TEMPO"]`, with unit `µg/m³` except `hcho` (`ppb`).  The
satellite dict has unique keys, so the repeated dict assignments are a
plain filter-map. -/
def tempoMerge (tempo_dict : List (String × Option ℚ)) : List (String × PollutantData) :=
  tempo_dict.filterMap fun p =>
    match p.2 with
    | some v => some (p.1, ⟨v, if p.1 ≠ "hcho" then "µg/m³" else "ppb", ["TEMPO"]⟩)
    | none => none

/-- The OpenAQ loop over `openaq_dict.get("pollutants", {})`: when the
pollutant already exists, its value becomes
`tempo_val * 0.4 + value * 0.6` and `"OpenAQ"` is appended to its source
tags; otherwise it is inserted fresh tagged `["OpenAQ"]`. -/
def overlayGround :
    List (String × PollutantData) → List (String × ℚ) → List (String × PollutantData)
  | acc, [] => acc
  | acc, (k, v) :: rest =>
    match dictLookup acc k with
    | some d =>
        overlayGround (dictInsert acc k ⟨d.value * 0.4 + v * 0.6, d.unit, d.source ++ ["OpenAQ"]⟩)
          rest
    | none => overlayGround (acc ++ [(k, ⟨v, "µg/m³", ["OpenAQ"]⟩)]) rest

/-- Lines 91–115: merged pollutant dict from the satellite and
ground-station results. -/
def mergePollutants (tempo_dict : List (String × Option ℚ))
    (openaq_pollutants : List (String × ℚ)) : List (String × PollutantData) :=
  overlayGround (tempoMerge tempo_dict) openaq_pollutants

/-! ## Forecast engine (`server/services/ml_service.py`) -/

/-- A historical point `{"t": ..., "aqi": ...}` (time in whole hours). -/
structure HistPoint where
  t : ℕ
  aqi : ℤ
  deriving DecidableEq

/-- A forecast point `{"t": ..., "aqi": ...}` (time in whole hours). -/
structure ForecastPoint where
  t : ℕ
  aqi : ℤ
  deriving DecidableEq

/-- The diurnal `time_effect`: `+15` during rush hours, `+5` at midday,
`-10` overnight/early morning. -/
def timeEffect (hour : ℕ) : ℚ :=
  if hour ∈ [7, 8, 17, 18, 19] then 15
  else if hour ∈ [10, 11, 12, 13, 14, 15] then 5
  else -10

/-- One `_simple_forecast` point value:
`base 65 + wind_effect + rain_effect + temp_effect + time_effect + noise`,
then `max(0, min(500, int(...)))`.  The `.get` defaults here are
`wind 3.0`, `precip 0.0`, `temp 20.0`. -/
def simpleAqi (weather_data : WeatherDict) (hour : ℕ) (noiseVal : ℚ) : ℤ :=
  let wind_speed := weather_data.wind_speed_ms.getD 3
  let precipitation := weather_data.precip_mm.getD 0
  let temperature := weather_data.temp_c.getD 20
  let wind_effect := -(min 20 (wind_speed * 3))
  let rain_effect := -(min 15 (precipitation * 5))
  let temp_effect := max 0 ((temperature - 25) * 0.5)
  let predicted := 65 + wind_effect + rain_effect + temp_effect + timeEffect hour + noiseVal
  max 0 (min 500 (pyInt predicted))

/-- `_simple_forecast(weather_data, hours)`: one point per `h in
range(1, hours+1)` at time `now + h`, with the diurnal effect taken from
the future timestamp's hour of day. -/
def simple_forecast (weather_data : WeatherDict) (hours now : ℕ) (noise : ℕ → ℚ) :
    List ForecastPoint :=
  (List.range hours).map fun i =>
    ⟨now + (i + 1), simpleAqi weather_data ((now + (i + 1)) % 24) (noise (i + 1))⟩

/-- `predict_forecast`: heuristic fallback when fewer than 24 historical
points exist, when feature construction leaves fewer than 10 rows
(`len(features) = len(history) - 3`), or when the model path raises
(oracle `none`); otherwise one model-predicted point per future hour with
`max(0, min(500, int(...)))` clamping. -/
def predict_forecast (historical_data : List HistPoint) (weather_data : WeatherDict)
    (hours now : ℕ) (modelFit : Option (ℕ → ℚ)) (noise : ℕ → ℚ) : List ForecastPoint :=
  if historical_data.length < 24 then simple_forecast weather_data hours now noise
  else if historical_data.length - 3 < 10 then simple_forecast weather_data hours now noise
  else
    match modelFit with
    | none => simple_forecast weather_data hours now noise
    | some f => (List.range hours).map fun i =>
        ⟨now + (i + 1), max 0 (min 500 (pyInt (f (i + 1))))⟩

/-! ## Response assembly (`get_air_quality`, lines 53–164) -/

/-- The `WeatherData` response model, with the documented default
`precip_mm=0, wind_speed_ms=0, temp_c=20, humidity=60, source=[]`. -/
structure WeatherData where
  precip_mm : ℚ
  wind_speed_ms : ℚ
  temp_c : ℚ
  humidity : ℚ
  source : List String
  deriving DecidableEq

/-- The weather adapter result viewed as the dict handed to
`get_health_advice` and `predict_forecast`: the adapter returns either a
complete dict or nothing (exception/empty both collapse to `{}`). -/
def toWeatherDict : Option WeatherData → WeatherDict
  | none => WeatherDict.empty
  | some w => ⟨some w.precip_mm, some w.wind_speed_ms, some w.temp_c, some w.humidity,
      some w.source⟩

/-- The `AQIData` response model. -/
structure AQIData where
  value : ℤ
  scale : String
  category : String
  deriving DecidableEq

/-- The response fields the claims reference.  Coordinate, location name,
timestamp, `history_7d` and provenance are omitted: no claim mentions
them. -/
structure AirQualityResponse where
  pollutants : List (String × PollutantData)
  weather : WeatherData
  aqi : AQIData
  forecast_24h : List ForecastPoint
  advice : HealthAdvice

/-- The cache-miss assembly path of `get_air_quality` (lines 53–164):
each adapter result is `none` on exception/empty (lines 65–88), pollutant
data is merged, AQI, health advice and forecast are computed, and the
response record is built.  Lines 140–142 substitute the default
`WeatherData` when the weather dict is empty. -/
def get_air_quality (tempoRes : Option (List (String × Option ℚ)))
    (openaqRes : Option (List (String × ℚ))) (weatherRes : Option WeatherData)
    (histRes : Option (List HistPoint)) (hours now : ℕ) (modelFit : Option (ℕ → ℚ))
    (noise : ℕ → ℚ) : AirQualityResponse :=
  let tempo_dict := tempoRes.getD []
  let openaq_pollutants := openaqRes.getD []
  let historical_list := histRes.getD []
  let merged_pollutants := mergePollutants tempo_dict openaq_pollutants
  let aqi_value := calculate_aqi (merged_pollutants.map fun p => (p.1, some p.2.value))
  let weather_dict := toWeatherDict weatherRes
  let health_advice := get_health_advice aqi_value weather_dict
  let forecast_data := predict_forecast historical_list weather_dict hours now modelFit noise
  { pollutants := merged_pollutants
    weather := weatherRes.getD ⟨0, 0, 20, 60, []⟩
    aqi := ⟨aqi_value, "0-500", get_aqi_category aqi_value⟩
    forecast_24h := forecast_data
    advice := health_advice }

/-! ## Result cache (`server/services/cache_service.py`) -/

/-- The `CacheService` state: the `_cache` and `_timestamps` dicts and the
configured TTL (seconds).  Wall-clock time is passed explicitly to each
operation. -/
structure CacheState (V : Type) where
  cache : List (String × V)
  timestamps : List (String × ℚ)
  ttl : ℚ

namespace CacheService

/-- `get(key)`: `None` when absent; lazily delete and return `None` when
`time.time() - self._timestamps[key] > self.ttl`; else the cached value. -/
def get {V : Type} (s : CacheState V) (now : ℚ) (key : String) : Option V × CacheState V :=
  match dictLookup s.cache key with
  | none => (none, s)
  | some v =>
    if s.ttl < now - (dictLookup s.timestamps key).getD 0 then
      (none, { s with cache := dictErase s.cache key, timestamps := dictErase s.timestamps key })
    else (some v, s)

/-- `set(key, value)`: store the value and the current timestamp. -/
def set {V : Type} (s : CacheState V) (now : ℚ) (key : String) (value : V) : CacheState V :=
  { s with cache := dictInsert s.cache key value,
           timestamps := dictInsert s.timestamps key now }

/-- `clear()`. -/
def clear {V : Type} (s : CacheState V) : CacheState V :=
  { s with cache := [], timestamps := [] }

/-- `size()`: `len(self._cache)`. -/
def size {V : Type} (s : CacheState V) : ℕ := s.cache.length

/-- `cleanup_expired()`: collect the expired keys from `_timestamps`,
delete each from both dicts, and return the count removed. -/
def cleanup_expired {V : Type} (s : CacheState V) (now : ℚ) : ℕ × CacheState V :=
  let expired_keys := (s.timestamps.filter fun p => s.ttl < now - p.2).map Prod.fst
  (expired_keys.length,
    { s with cache := expired_keys.foldl dictErase s.cache,
             timestamps := expired_keys.foldl dictErase s.timestamps })

/-- The representation invariant of `CacheService`: both dicts always hold
exactly the same keys, without duplicates. -/
def Inv {V : Type} (s : CacheState V) : Prop :=
  s.cache.map Prod.fst = s.timestamps.map Prod.fst ∧ (s.cache.map Prod.fst).Nodup

end CacheService

/-! ## Lemmas about `pyInt` and `pyRound` -/

theorem pyInt_intCast (n : ℤ) : pyInt (n : ℚ) = n := by
  simp [pyInt]

theorem pyInt_eq_floor {q : ℚ} (h : 0 ≤ q) : pyInt q = ⌊q⌋ := by
  simp [pyInt, h]

theorem le_pyRound (q : ℚ) : ⌊q⌋ ≤ pyRound q := by
  unfold pyRound
  split_ifs <;> omega

theorem pyRound_le (q : ℚ) : pyRound q ≤ ⌊q⌋ + 1 := by
  unfold pyRound
  split_ifs <;> omega

theorem pyRound_intCast (n : ℤ) : pyRound (n : ℚ) = n := by
  simp [pyRound, Int.fract_intCast, Int.floor_intCast]

theorem pyRound_mono {q1 q2 : ℚ} (h : q1 ≤ q2) : pyRound q1 ≤ pyRound q2 := by
  by_cases hf : ⌊q1⌋ = ⌊q2⌋
  · have hfr : Int.fract q1 ≤ Int.fract q2 := by
      simp only [Int.fract, hf]
      linarith
    unfold pyRound
    rw [hf]
    split_ifs <;> first | omega | linarith
  · have hlt : ⌊q1⌋ < ⌊q2⌋ := lt_of_le_of_ne (Int.floor_mono h) hf
    have h1 := pyRound_le q1
    have h2 := le_pyRound q2
    omega

/-! ## Lemmas about the `max_aqi` accumulation -/

theorem maxStep_mono {a b : ℤ} (h : a ≤ b) (p : String × Option ℚ) :
    maxStep a p ≤ maxStep b p := by
  unfold maxStep
  cases contrib p with
  | none => exact h
  | some s => exact max_le_max h le_rfl

theorem le_maxStep (a : ℤ) (p : String × Option ℚ) : a ≤ maxStep a p := by
  unfold maxStep
  cases contrib p <;> simp

theorem foldl_maxStep_mono {a b : ℤ} (h : a ≤ b) (l : List (String × Option ℚ)) :
    l.foldl maxStep a ≤ l.foldl maxStep b := by
  induction l generalizing a b with
  | nil => simpa using h
  | cons p rest ih => exact ih (maxStep_mono h p)

theorem le_foldl_maxStep (a : ℤ) (l : List (String × Option ℚ)) :
    a ≤ l.foldl maxStep a := by
  induction l generalizing a with
  | nil => simp
  | cons p rest ih => exact le_trans (le_maxStep a p) (ih _)

theorem maxAqi_nonneg (l : List (String × Option ℚ)) : 0 ≤ maxAqi l :=
  le_foldl_maxStep 0 l

/-- `calculate_aqi` in closed form: the accumulated maximum floored at 50
(also correct on the empty dict). -/
theorem calculate_aqi_eq (l : List (String × Option ℚ)) :
    calculate_aqi l = max 50 (maxAqi l) := by
  unfold calculate_aqi
  split_ifs with h0 h1
  · subst h0
    simp [maxAqi]
  · omega
  · have := maxAqi_nonneg l
    omega

theorem foldl_max_comm (l : List ℤ) (a b : ℤ) :
    l.foldl max (max a b) = max a (l.foldl max b) := by
  induction l generalizing b with
  | nil => rfl
  | cons x rest ih =>
    simp only [List.foldl_cons]
    rw [max_assoc, ih]

theorem foldl_maxStep_eq_filterMap (l : List (String × Option ℚ)) (a : ℤ) :
    l.foldl maxStep a = (l.filterMap contrib).foldl max a := by
  induction l generalizing a with
  | nil => rfl
  | cons p rest ih =>
    simp only [List.foldl_cons, List.filterMap_cons, maxStep]
    cases contrib p <;> simp [ih]

/-! ## Well-formedness of the breakpoint tables -/

/-- A sane breakpoint row: nonempty concentration range, nondecreasing AQI
range inside `[0, 500]`. -/
def SegOK (s : Segment) : Prop :=
  s.bpLow < s.bpHigh ∧ s.aqiLow ≤ s.aqiHigh ∧ 0 ≤ s.aqiLow ∧ s.aqiHigh ≤ 500

/-- Strict ordering between two rows of one table. -/
def SegLt (s t : Segment) : Prop := s.bpHigh < t.bpLow ∧ s.aqiHigh ≤ t.aqiLow

/-- A well-formed table: sane rows, listed in strictly increasing order. -/
def TableWF (l : List Segment) : Prop :=
  (∀ s ∈ l, SegOK s) ∧ l.Pairwise SegLt

theorem pm25Table_wf : TableWF pm25Table ∧ pm25Table ≠ [] := by
  refine ⟨⟨?_, ?_⟩, by simp [pm25Table]⟩
  · intro s hs
    simp only [pm25Table, List.mem_cons, List.not_mem_nil, or_false] at hs
    rcases hs with h | h | h | h | h | h <;> subst h <;>
      exact ⟨by norm_num, by norm_num, by norm_num, by norm_num⟩
  · norm_num [pm25Table, List.pairwise_cons, SegLt]

theorem pm10Table_wf : TableWF pm10Table ∧ pm10Table ≠ [] := by
  refine ⟨⟨?_, ?_⟩, by simp [pm10Table]⟩
  · intro s hs
    simp only [pm10Table, List.mem_cons, List.not_mem_nil, or_false] at hs
    rcases hs with h | h | h | h | h | h <;> subst h <;>
      exact ⟨by norm_num, by norm_num, by norm_num, by norm_num⟩
  · norm_num [pm10Table, List.pairwise_cons, SegLt]

theorem o3Table_wf : TableWF o3Table ∧ o3Table ≠ [] := by
  refine ⟨⟨?_, ?_⟩, by simp [o3Table]⟩
  · intro s hs
    simp only [o3Table, List.mem_cons, List.not_mem_nil, or_false] at hs
    rcases hs with h | h | h | h | h <;> subst h <;>
      exact ⟨by norm_num, by norm_num, by norm_num, by norm_num⟩
  · norm_num [o3Table, List.pairwise_cons, SegLt]

theorem no2Table_wf : TableWF no2Table ∧ no2Table ≠ [] := by
  refine ⟨⟨?_, ?_⟩, by simp [no2Table]⟩
  · intro s hs
    simp only [no2Table, List.mem_cons, List.not_mem_nil, or_false] at hs
    rcases hs with h | h | h | h | h | h <;> subst h <;>
      exact ⟨by norm_num, by norm_num, by norm_num, by norm_num⟩
  · norm_num [no2Table, List.pairwise_cons, SegLt]

theorem so2Table_wf : TableWF so2Table ∧ so2Table ≠ [] := by
  refine ⟨⟨?_, ?_⟩, by simp [so2Table]⟩
  · intro s hs
    simp only [so2Table, List.mem_cons, List.not_mem_nil, or_false] at hs
    rcases hs with h | h | h | h | h | h <;> subst h <;>
      exact ⟨by norm_num, by norm_num, by norm_num, by norm_num⟩
  · norm_num [so2Table, List.pairwise_cons, SegLt]

theorem coTable_wf : TableWF coTable ∧ coTable ≠ [] := by
  refine ⟨⟨?_, ?_⟩, by simp [coTable]⟩
  · intro s hs
    simp only [coTable, List.mem_cons, List.not_mem_nil, or_false] at hs
    rcases hs with h | h | h | h | h | h <;> subst h <;>
      exact ⟨by norm_num, by norm_num, by norm_num, by norm_num⟩
  · norm_num [coTable, List.pairwise_cons, SegLt]

/-- Every table reachable from the `breakpoints` dict is well formed and
nonempty. -/
theorem table_of_lookup {nm : String} {tb : List Segment}
    (h : dictLookup breakpointTables nm = some tb) : TableWF tb ∧ tb ≠ [] := by
  simp only [breakpointTables, dictLookup] at h
  split_ifs at h <;> simp only [Option.some.injEq] at h <;> subst h
  · exact pm25Table_wf
  · exact pm10Table_wf
  · exact o3Table_wf
  · exact no2Table_wf
  · exact so2Table_wf
  · exact coTable_wf

/-! ## Lemmas about `findSegment`, `interpAqi` and `subIndex` -/

theorem findSegment_some {c : ℚ} {l : List Segment} {s : Segment}
    (h : findSegment c l = some s) : s ∈ l ∧ s.bpLow ≤ c ∧ c ≤ s.bpHigh := by
  induction l with
  | nil => simp [findSegment] at h
  | cons u rest ih =>
    rw [findSegment] at h
    split_ifs at h with hu
    · cases h
      exact ⟨List.mem_cons_self s rest, hu.1, hu.2⟩
    · rcases ih h with ⟨hmem, hlo, hhi⟩
      exact ⟨List.mem_cons_of_mem u hmem, hlo, hhi⟩

theorem findSegment_eq_none {c : ℚ} {l : List Segment}
    (h : ∀ s ∈ l, ¬(s.bpLow ≤ c ∧ c ≤ s.bpHigh)) : findSegment c l = none := by
  induction l with
  | nil => rfl
  | cons u rest ih =>
    rw [findSegment, if_neg (h u (List.mem_cons_self u rest))]
    exact ih fun s hs => h s (List.mem_cons_of_mem u hs)

theorem interpAqi_mono {s : Segment} (hs : SegOK s) {c1 c2 : ℚ} (h : c1 ≤ c2) :
    interpAqi s c1 ≤ interpAqi s c2 := by
  unfold interpAqi
  have hslope : 0 ≤ ((s.aqiHigh - s.aqiLow : ℤ) : ℚ) / (s.bpHigh - s.bpLow) := by
    apply div_nonneg
    · exact_mod_cast sub_nonneg.mpr hs.2.1
    · linarith [hs.1]
  have := mul_le_mul_of_nonneg_left (sub_le_sub_right h s.bpLow) hslope
  linarith

theorem interpAqi_at_low (s : Segment) : interpAqi s s.bpLow = (s.aqiLow : ℚ) := by
  simp [interpAqi]

theorem interpAqi_at_high {s : Segment} (hs : SegOK s) :
    interpAqi s s.bpHigh = (s.aqiHigh : ℚ) := by
  unfold interpAqi
  rw [div_mul_cancel₀]
  · push_cast
    ring
  · exact sub_ne_zero.mpr (ne_of_gt hs.1)

/-- Bounds for the rounded sub-index of a concentration inside a sane row. -/
theorem subVal_bounds {s : Segment} (hs : SegOK s) {c : ℚ}
    (hlo : s.bpLow ≤ c) (hhi : c ≤ s.bpHigh) :
    s.aqiLow ≤ pyRound (interpAqi s c) ∧ pyRound (interpAqi s c) ≤ s.aqiHigh := by
  constructor
  · have h1 : interpAqi s s.bpLow ≤ interpAqi s c := interpAqi_mono hs hlo
    rw [interpAqi_at_low] at h1
    have h2 := pyRound_mono h1
    rwa [pyRound_intCast] at h2
  · have h1 : interpAqi s c ≤ interpAqi s s.bpHigh := interpAqi_mono hs hhi
    rw [interpAqi_at_high hs] at h1
    have h2 := pyRound_mono h1
    rwa [pyRound_intCast] at h2

theorem lastHigh_cons {u : Segment} {rest : List Segment} (h : rest ≠ []) :
    lastHigh (u :: rest) = lastHigh rest := by
  cases rest with
  | nil => exact absurd rfl h
  | cons v rs => simp [lastHigh]

theorem bpHigh_le_lastHigh {l : List Segment} (hwf : TableWF l) {s : Segment} (hs : s ∈ l) :
    s.bpHigh ≤ lastHigh l := by
  induction l with
  | nil => cases hs
  | cons u rest ih =>
    have hwfr : TableWF rest :=
      ⟨fun x hx => hwf.1 x (List.mem_cons_of_mem u hx), (List.pairwise_cons.mp hwf.2).2⟩
    rcases List.mem_cons.mp hs with rfl | hs'
    · cases hrest : rest with
      | nil => simp [lastHigh]
      | cons v rs =>
        have hne : rest ≠ [] := by simp [hrest]
        obtain ⟨t, ht⟩ : ∃ t, rest.getLast? = some t := by
          cases hrest
          exact ⟨(v :: rs).getLast (by simp), List.getLast?_eq_getLast _ (by simp)⟩
        have htm : t ∈ rest := by
          have := List.getLast?_eq_getLast rest (by simp [hrest])
          rw [this] at ht
          cases ht
          exact List.getLast_mem _
        have hseglt : SegLt s t := (List.pairwise_cons.mp hwf.2).1 t htm
        have hokt : SegOK t := hwfr.1 t htm
        rw [← hrest, lastHigh_cons hne]
        have hlh : lastHigh rest = t.bpHigh := by simp [lastHigh, ht]
        rw [hlh]
        linarith [hseglt.1, hokt.1]
    · cases rest with
      | nil => cases hs'
      | cons v rs =>
        rw [lastHigh_cons (by simp)]
        exact ih hwfr hs'

theorem lowestLow_le_bpLow {l : List Segment} (hwf : TableWF l) {s : Segment} (hs : s ∈ l) :
    lowestLow l ≤ s.bpLow := by
  cases l with
  | nil => cases hs
  | cons u rest =>
    rcases List.mem_cons.mp hs with rfl | hs'
    · simp [lowestLow]
    · have hseglt : SegLt u s := (List.pairwise_cons.mp hwf.2).1 s hs'
      have hoku : SegOK u := hwf.1 u (List.mem_cons_self u rest)
      have : lowestLow (u :: rest) = u.bpLow := by simp [lowestLow]
      rw [this]
      linarith [hoku.1, hseglt.1]

theorem lowestLow_lt_lastHigh {l : List Segment} (hwf : TableWF l) (hne : l ≠ []) :
    lowestLow l < lastHigh l := by
  cases l with
  | nil => exact absurd rfl hne
  | cons u rest =>
    have hu : u ∈ u :: rest := List.mem_cons_self u rest
    have hoku : SegOK u := hwf.1 u hu
    have h1 : lowestLow (u :: rest) = u.bpLow := by simp [lowestLow]
    have h2 := bpHigh_le_lastHigh hwf hu
    rw [h1]
    linarith [hoku.1]

/-- Any produced sub-index lies in `[0, 500]`. -/
theorem subIndex_bounds {l : List Segment} (hwf : TableWF l) {c : ℚ} {a : ℤ}
    (h : subIndex l c = some a) : 0 ≤ a ∧ a ≤ 500 := by
  unfold subIndex at h
  cases hfs : findSegment c l with
  | some s =>
    rw [hfs] at h
    cases h
    obtain ⟨hm, hlo, hhi⟩ := findSegment_some hfs
    have hok := hwf.1 s hm
    obtain ⟨h1, h2⟩ := subVal_bounds hok hlo hhi
    exact ⟨le_trans hok.2.2.1 h1, le_trans h2 hok.2.2.2⟩
  | none =>
    rw [hfs] at h
    split_ifs at h
    · cases h
      norm_num

/-- Core monotonicity when both concentrations land in a row: the earlier
concentration's rounded sub-index never exceeds the later one's. -/
theorem findSegment_pair {l : List Segment} (hwf : TableWF l) {c1 c2 : ℚ} (hc : c1 ≤ c2)
    {s t : Segment} (h1 : findSegment c1 l = some s) (h2 : findSegment c2 l = some t) :
    pyRound (interpAqi s c1) ≤ pyRound (interpAqi t c2) := by
  induction l with
  | nil => simp [findSegment] at h1
  | cons u rest ih =>
    have hwfr : TableWF rest :=
      ⟨fun x hx => hwf.1 x (List.mem_cons_of_mem u hx), (List.pairwise_cons.mp hwf.2).2⟩
    rw [findSegment] at h1 h2
    by_cases hu1 : u.bpLow ≤ c1 ∧ c1 ≤ u.bpHigh
    · rw [if_pos hu1] at h1
      injection h1 with h1
      subst h1
      by_cases hu2 : u.bpLow ≤ c2 ∧ c2 ≤ u.bpHigh
      · rw [if_pos hu2] at h2
        injection h2 with h2
        subst h2
        exact pyRound_mono (interpAqi_mono (hwf.1 u (List.mem_cons_self u rest)) hc)
      · rw [if_neg hu2] at h2
        obtain ⟨htm, htlo, hthi⟩ := findSegment_some h2
        have hseglt : SegLt u t := (List.pairwise_cons.mp hwf.2).1 t htm
        have hoku : SegOK u := hwf.1 u (List.mem_cons_self u rest)
        have hokt : SegOK t := hwf.1 t (List.mem_cons_of_mem u htm)
        have b1 := (subVal_bounds hoku hu1.1 hu1.2).2
        have b2 := (subVal_bounds hokt htlo hthi).1
        have b3 := hseglt.2
        omega
    · rw [if_neg hu1] at h1
      by_cases hu2 : u.bpLow ≤ c2 ∧ c2 ≤ u.bpHigh
      · rw [if_pos hu2] at h2
        injection h2 with h2
        subst h2
        obtain ⟨hsm, hslo, hshi⟩ := findSegment_some h1
        have hseglt : SegLt u s := (List.pairwise_cons.mp hwf.2).1 s hsm
        exfalso
        linarith [hu2.2, hseglt.1, hslo, hc]
      · rw [if_neg hu2] at h2
        exact ih hwfr h1 h2

/-- The sub-index is monotone in the concentration, on concentrations that
produce one. -/
theorem subIndex_mono {l : List Segment} (hwf : TableWF l) {c1 c2 : ℚ} (hc : c1 ≤ c2)
    {a1 a2 : ℤ} (h1 : subIndex l c1 = some a1) (h2 : subIndex l c2 = some a2) :
    a1 ≤ a2 := by
  unfold subIndex at h1 h2
  cases hf1 : findSegment c1 l with
  | some s =>
    rw [hf1] at h1
    injection h1 with h1
    subst h1
    cases hf2 : findSegment c2 l with
    | some t =>
      rw [hf2] at h2
      injection h2 with h2
      subst h2
      exact findSegment_pair hwf hc hf1 hf2
    | none =>
      rw [hf2] at h2
      split_ifs at h2 with hex
      injection h2 with h2
      subst h2
      obtain ⟨hm, hlo, hhi⟩ := findSegment_some hf1
      have hok := hwf.1 s hm
      have hb := (subVal_bounds hok hlo hhi).2
      have hb2 := hok.2.2.2
      omega
  | none =>
    rw [hf1] at h1
    split_ifs at h1 with hex
    injection h1 with h1
    subst h1
    cases hf2 : findSegment c2 l with
    | some t =>
      obtain ⟨htm, htlo, hthi⟩ := findSegment_some hf2
      have := bpHigh_le_lastHigh hwf htm
      exfalso
      linarith
    | none =>
      rw [hf2] at h2
      split_ifs at h2 with hex2
      injection h2 with h2
      omega

/-- A concentration strictly below the table contributes no sub-index. -/
theorem subIndex_none_of_lt_lowestLow {l : List Segment} (hwf : TableWF l) (hne : l ≠ [])
    {c : ℚ} (hc : c < lowestLow l) : subIndex l c = none := by
  have hfs : findSegment c l = none := by
    apply findSegment_eq_none
    intro s hs hmem
    have := lowestLow_le_bpLow hwf hs
    linarith [hmem.1]
  unfold subIndex
  rw [hfs]
  rw [if_neg]
  have := lowestLow_lt_lastHigh hwf hne
  linarith

/-! ## Lemmas about the dict model -/

theorem dictLookup_cons {α : Type} (p : String × α) (l : List (String × α)) (k : String) :
    dictLookup (p :: l) k = if p.1 = k then some p.2 else dictLookup l k := rfl

theorem dictLookup_insert_self {α : Type} (l : List (String × α)) (k : String) (v : α) :
    dictLookup (dictInsert l k v) k = some v := by
  induction l with
  | nil => simp [dictInsert, dictLookup]
  | cons p rest ih =>
    rw [dictInsert]
    split_ifs with hp
    · simp [dictLookup]
    · rw [dictLookup_cons, if_neg hp]
      exact ih

theorem dictLookup_insert_ne {α : Type} (l : List (String × α)) {k k' : String}
    (h : k ≠ k') (v : α) : dictLookup (dictInsert l k v) k' = dictLookup l k' := by
  induction l with
  | nil => simp [dictInsert, dictLookup, h]
  | cons p rest ih =>
    rw [dictInsert]
    split_ifs with hp
    · have hne : ¬p.1 = k' := fun hc => h (hp.symm.trans hc)
      rw [dictLookup_cons, dictLookup_cons, if_neg h, if_neg hne]
    · rw [dictLookup_cons, dictLookup_cons, ih]

theorem dictLookup_append {α : Type} (l1 l2 : List (String × α)) (k : String) :
    dictLookup (l1 ++ l2) k =
      match dictLookup l1 k with
      | some v => some v
      | none => dictLookup l2 k := by
  induction l1 with
  | nil => simp [dictLookup]
  | cons p rest ih =>
    rw [List.cons_append, dictLookup_cons, dictLookup_cons]
    split_ifs with hp
    · rfl
    · exact ih

theorem map_fst_dictInsert {α : Type} (l : List (String × α)) (k : String) (v : α) :
    (dictInsert l k v).map Prod.fst =
      if k ∈ l.map Prod.fst then l.map Prod.fst else l.map Prod.fst ++ [k] := by
  induction l with
  | nil => simp [dictInsert]
  | cons p rest ih =>
    rw [dictInsert]
    by_cases hp : p.1 = k
    · rw [if_pos hp]
      simp [List.map_cons, hp, List.mem_cons]
    · rw [if_neg hp]
      have hk : ¬ k = p.1 := fun hh => hp hh.symm
      by_cases hm : k ∈ rest.map Prod.fst <;>
        simp [List.map_cons, ih, List.mem_cons, hk, hm]

theorem map_fst_dictErase {α : Type} (l : List (String × α)) (k : String) :
    (dictErase l k).map Prod.fst = keyErase (l.map Prod.fst) k := by
  induction l with
  | nil => rfl
  | cons p rest ih =>
    rw [dictErase]
    by_cases hp : p.1 = k
    · rw [if_pos hp, List.map_cons, keyErase, if_pos hp]
    · rw [if_neg hp, List.map_cons, List.map_cons, keyErase, if_neg hp, ih]

theorem keyErase_sublist (l : List String) (k : String) : (keyErase l k).Sublist l := by
  induction l with
  | nil => exact List.Sublist.refl []
  | cons a rest ih =>
    rw [keyErase]
    split_ifs with ha
    · exact List.sublist_cons_self a rest
    · exact List.Sublist.cons₂ a ih

theorem length_keyErase_of_mem {l : List String} {k : String} (h : k ∈ l) :
    (keyErase l k).length + 1 = l.length := by
  induction l with
  | nil => cases h
  | cons a rest ih =>
    rw [keyErase]
    split_ifs with ha
    · simp
    · have hk : k ∈ rest := by
        rcases List.mem_cons.mp h with h1 | h1
        · exact absurd h1.symm ha
        · exact h1
      simp only [List.length_cons]
      rw [← ih hk]

theorem mem_keyErase_of_ne {l : List String} {k k' : String} (h : k' ≠ k) (hm : k' ∈ l) :
    k' ∈ keyErase l k := by
  induction l with
  | nil => cases hm
  | cons a rest ih =>
    rw [keyErase]
    split_ifs with ha
    · rcases List.mem_cons.mp hm with h1 | h1
      · exact absurd (h1.trans ha) h
      · exact h1
    · rcases List.mem_cons.mp hm with h1 | h1
      · exact h1 ▸ List.mem_cons_self a _
      · exact List.mem_cons_of_mem a (ih h1)

theorem keyErase_of_not_mem {l : List String} {k : String} (h : k ∉ l) :
    keyErase l k = l := by
  induction l with
  | nil => rfl
  | cons a rest ih =>
    rw [keyErase, if_neg, ih (fun hm => h (List.mem_cons_of_mem a hm))]
    intro ha
    exact h (ha ▸ List.mem_cons_self a rest)

theorem length_foldl_keyErase {ks : List String} (hnd : ks.Nodup) :
    ∀ {l : List String}, (∀ k ∈ ks, k ∈ l) → (ks.foldl keyErase l).length + ks.length = l.length := by
  induction ks with
  | nil => intro l _; simp
  | cons k rest ih =>
    intro l hsub
    have hk : k ∈ l := hsub k (List.mem_cons_self k rest)
    have hnd' : rest.Nodup := (List.nodup_cons.mp hnd).2
    have hknr : k ∉ rest := (List.nodup_cons.mp hnd).1
    have hsub' : ∀ k' ∈ rest, k' ∈ keyErase l k := fun k' hk' =>
      mem_keyErase_of_ne (fun he => hknr (he ▸ hk')) (hsub k' (List.mem_cons_of_mem k hk'))
    have := ih hnd' hsub'
    have hlen := length_keyErase_of_mem hk
    simp only [List.foldl_cons, List.length_cons]
    omega

theorem map_fst_foldl_dictErase {α : Type} (ks : List String) (l : List (String × α)) :
    (ks.foldl dictErase l).map Prod.fst = ks.foldl keyErase (l.map Prod.fst) := by
  induction ks generalizing l with
  | nil => rfl
  | cons k rest ih =>
    simp only [List.foldl_cons]
    rw [ih, map_fst_dictErase]

/-! ## Lemmas about the pollutant merge -/

theorem tempoMerge_lookup_some {tempo_dict : List (String × Option ℚ)} {p : String} {sv : ℚ}
    (h : dictLookup tempo_dict p = some (some sv)) :
    dictLookup (tempoMerge tempo_dict) p =
      some ⟨sv, if p ≠ "hcho" then "µg/m³" else "ppb", ["TEMPO"]⟩ := by
  induction tempo_dict with
  | nil => simp [dictLookup] at h
  | cons q rest ih =>
    obtain ⟨qk, qv⟩ := q
    rw [dictLookup_cons] at h
    by_cases hqk : qk = p
    · rw [if_pos hqk] at h
      injection h with h
      subst h
      subst hqk
      simp only [tempoMerge, List.filterMap_cons]
      rw [dictLookup_cons]
      simp
    · rw [if_neg hqk] at h
      simp only [tempoMerge, List.filterMap_cons]
      cases qv with
      | none => exact ih h
      | some v =>
        rw [dictLookup_cons, if_neg hqk]
        exact ih h

theorem overlayGround_lookup_of_not_mem {ground : List (String × ℚ)} {p : String}
    (h : p ∉ ground.map Prod.fst) (acc : List (String × PollutantData)) :
    dictLookup (overlayGround acc ground) p = dictLookup acc p := by
  induction ground generalizing acc with
  | nil => rfl
  | cons g rest ih =>
    obtain ⟨gk, gv⟩ := g
    have hne : gk ≠ p := by
      intro he
      exact h (by simp [he])
    have hrest : p ∉ rest.map Prod.fst := fun hm => h (by simp [hm])
    rw [overlayGround]
    cases hl : dictLookup acc gk with
    | some d =>
      rw [ih hrest, dictLookup_insert_ne _ hne]
    | none =>
      rw [ih hrest, dictLookup_append]
      cases hp : dictLookup acc p with
      | some d => rfl
      | none => simp [dictLookup, hne]

theorem overlayGround_lookup_merge {ground : List (String × ℚ)} {p : String} {gv : ℚ}
    (hnd : (ground.map Prod.fst).Nodup) (hg : dictLookup ground p = some gv)
    {acc : List (String × PollutantData)} {d : PollutantData}
    (ha : dictLookup acc p = some d) :
    dictLookup (overlayGround acc ground) p =
      some ⟨d.value * 0.4 + gv * 0.6, d.unit, d.source ++ ["OpenAQ"]⟩ := by
  induction ground generalizing acc d with
  | nil => simp [dictLookup] at hg
  | cons g rest ih =>
    obtain ⟨gk, gval⟩ := g
    rw [dictLookup_cons] at hg
    have hnd' : (rest.map Prod.fst).Nodup := (List.nodup_cons.mp (by simpa using hnd)).2
    by_cases hgk : gk = p
    · rw [if_pos hgk] at hg
      injection hg with hg
      subst hg
      subst hgk
      have hnm : gk ∉ rest.map Prod.fst := (List.nodup_cons.mp (by simpa using hnd)).1
      rw [overlayGround, ha, overlayGround_lookup_of_not_mem hnm,
        dictLookup_insert_self]
    · rw [if_neg hgk] at hg
      rw [overlayGround]
      cases hl : dictLookup acc gk with
      | some d2 =>
        exact ih hnd' hg (by rw [dictLookup_insert_ne _ hgk]; exact ha)
      | none =>
        apply ih hnd' hg
        rw [dictLookup_append, ha]

theorem overlayGround_lookup_fresh {ground : List (String × ℚ)} {p : String} {gv : ℚ}
    (hnd : (ground.map Prod.fst).Nodup) (hg : dictLookup ground p = some gv)
    {acc : List (String × PollutantData)} (ha : dictLookup acc p = none) :
    dictLookup (overlayGround acc ground) p = some ⟨gv, "µg/m³", ["OpenAQ"]⟩ := by
  induction ground generalizing acc with
  | nil => simp [dictLookup] at hg
  | cons g rest ih =>
    obtain ⟨gk, gval⟩ := g
    rw [dictLookup_cons] at hg
    have hnd' : (rest.map Prod.fst).Nodup := (List.nodup_cons.mp (by simpa using hnd)).2
    by_cases hgk : gk = p
    · rw [if_pos hgk] at hg
      injection hg with hg
      subst hg
      subst hgk
      have hnm : gk ∉ rest.map Prod.fst := (List.nodup_cons.mp (by simpa using hnd)).1
      rw [overlayGround, ha, overlayGround_lookup_of_not_mem hnm, dictLookup_append, ha]
      simp [dictLookup_cons]
    · rw [if_neg hgk] at hg
      rw [overlayGround]
      cases hl : dictLookup acc gk with
      | some d2 =>
        exact ih hnd' hg (by rw [dictLookup_insert_ne _ hgk]; exact ha)
      | none =>
        apply ih hnd' hg
        rw [dictLookup_append, ha]
        simp [dictLookup, hgk]

/-! ## Lemmas about the cache operations -/

theorem foldl_keyErase_sublist (ks : List String) (l : List String) :
    (ks.foldl keyErase l).Sublist l := by
  induction ks generalizing l with
  | nil => exact List.Sublist.refl l
  | cons k rest ih =>
    simp only [List.foldl_cons]
    exact (ih (keyErase l k)).trans (keyErase_sublist l k)

namespace CacheService

theorem set_inv {V : Type} {s : CacheState V} (h : Inv s) (now : ℚ) (k : String) (v : V) :
    Inv (set s now k v) := by
  obtain ⟨hkeys, hnd⟩ := h
  constructor
  · show (dictInsert s.cache k v).map Prod.fst = (dictInsert s.timestamps k now).map Prod.fst
    rw [map_fst_dictInsert, map_fst_dictInsert, hkeys]
  · show (dictInsert s.cache k v).map Prod.fst |>.Nodup
    rw [map_fst_dictInsert]
    split_ifs with hm
    · exact hnd
    · rw [List.nodup_append]
      exact ⟨hnd, List.nodup_singleton k, by simpa using hm⟩

theorem get_inv {V : Type} {s : CacheState V} (h : Inv s) (now : ℚ) (k : String) :
    Inv (CacheService.get s now k).2 := by
  obtain ⟨hkeys, hnd⟩ := h
  unfold CacheService.get
  cases hl : dictLookup s.cache k with
  | none => exact ⟨hkeys, hnd⟩
  | some v =>
    split_ifs with hexp
    · constructor
      · show (dictErase s.cache k).map Prod.fst = (dictErase s.timestamps k).map Prod.fst
        rw [map_fst_dictErase, map_fst_dictErase, hkeys]
      · show (dictErase s.cache k).map Prod.fst |>.Nodup
        rw [map_fst_dictErase]
        exact (keyErase_sublist _ _).nodup hnd
    · exact ⟨hkeys, hnd⟩

theorem clear_inv {V : Type} (s : CacheState V) : Inv (clear s) := by
  constructor <;> simp [clear]

theorem cleanup_expired_inv {V : Type} {s : CacheState V} (h : Inv s) (now : ℚ) :
    Inv (cleanup_expired s now).2 := by
  obtain ⟨hkeys, hnd⟩ := h
  unfold cleanup_expired
  constructor
  · show (List.foldl dictErase s.cache _).map Prod.fst =
      (List.foldl dictErase s.timestamps _).map Prod.fst
    rw [map_fst_foldl_dictErase, map_fst_foldl_dictErase, hkeys]
  · show (List.foldl dictErase s.cache _).map Prod.fst |>.Nodup
    rw [map_fst_foldl_dictErase]
    exact (foldl_keyErase_sublist _ _).nodup hnd

theorem size_eq_timestamps {V : Type} {s : CacheState V} (h : Inv s) :
    size s = s.timestamps.length := by
  have := congrArg List.length h.1
  simpa using this

theorem cleanup_expired_count {V : Type} {s : CacheState V} (h : Inv s) (now : ℚ) :
    (cleanup_expired s now).1 + size (cleanup_expired s now).2 = size s := by
  obtain ⟨hkeys, hnd⟩ := h
  unfold cleanup_expired size
  simp only
  have hlen : (List.foldl dictErase s.cache
      ((s.timestamps.filter fun p => s.ttl < now - p.2).map Prod.fst)).length =
      (List.foldl keyErase (s.cache.map Prod.fst)
        ((s.timestamps.filter fun p => s.ttl < now - p.2).map Prod.fst)).length := by
    rw [← map_fst_foldl_dictErase]
    rw [List.length_map]
  have hsub : ((s.timestamps.filter fun p => s.ttl < now - p.2).map Prod.fst).Sublist
      (s.timestamps.map Prod.fst) :=
    (List.filter_sublist s.timestamps).map Prod.fst
  have hndks : ((s.timestamps.filter fun p => s.ttl < now - p.2).map Prod.fst).Nodup :=
    hsub.nodup (hkeys ▸ hnd)
  have hmem : ∀ k ∈ (s.timestamps.filter fun p => s.ttl < now - p.2).map Prod.fst,
      k ∈ s.cache.map Prod.fst := by
    intro k hk
    rw [hkeys]
    exact hsub.mem hk
  have := length_foldl_keyErase hndks hmem
  have hcl : (s.cache.map Prod.fst).length = s.cache.length := List.length_map _ _
  omega

end CacheService

/-! ## Claim theorems -/

/-- Claim C2: for every pollutant set, `calculate_aqi` returns the maximum of
the per-pollutant sub-indices (`contrib`, obtained by breakpoint
interpolation), floored at 50 — equivalently, the fold of `max` over the
sub-index list started at 50 — and for the empty pollutant set it returns
exactly 50. -/
theorem C2_calculate_aqi_max_floored (pollutants : List (String × Option ℚ)) :
    calculate_aqi pollutants = (pollutants.filterMap contrib).foldl max 50 ∧
    calculate_aqi [] = 50 := by
  constructor
  · rw [calculate_aqi_eq, maxAqi, foldl_maxStep_eq_filterMap]
    have h : (50 : ℤ) = max 50 0 := by norm_num
    conv_rhs => rw [h, foldl_max_comm]
  · rfl

/-- Claim C6 is false on the code: pm25 concentrations 55.4 and 55.45 with
55.4 ≤ 55.45, yet `calculate_aqi` yields 150 at 55.4 and only 50 at 55.45 —
55.45 falls in the gap between the rows `(35.5, 55.4)` and `(55.5, 150.4)`,
matches no row, is not above the table's maximum, and so contributes no
sub-index at all.  Monotonicity in the concentration fails. -/
theorem C6_counterexample :
    (55.4 : ℚ) ≤ 55.45 ∧
    calculate_aqi [("pm25", some (55.4 : ℚ))] = 150 ∧
    calculate_aqi [("pm25", some (55.45 : ℚ))] = 50 := by
  have hround : pyRound ((150 : ℤ) : ℚ) = 150 := pyRound_intCast 150
  refine ⟨by norm_num, ?_, ?_⟩
  · have h1 : findSegment (55.4 : ℚ) pm25Table = some ⟨35.5, 55.4, 101, 150⟩ := by
      rw [pm25Table, findSegment, if_neg (by norm_num), findSegment, if_neg (by norm_num),
        findSegment, if_pos (by norm_num)]
    have h2 : interpAqi ⟨35.5, 55.4, 101, 150⟩ (55.4 : ℚ) = ((150 : ℤ) : ℚ) := by
      unfold interpAqi
      norm_num
    have h3 : subIndex pm25Table (55.4 : ℚ) = some 150 := by
      unfold subIndex
      rw [h1]
      show some (pyRound (interpAqi ⟨35.5, 55.4, 101, 150⟩ (55.4 : ℚ))) = some 150
      rw [h2, hround]
    have h4 : contrib ("pm25", some (55.4 : ℚ)) = some 150 := by
      unfold contrib
      have : dictLookup breakpointTables "pm25" = some pm25Table := rfl
      rw [this]
      exact h3
    unfold calculate_aqi maxAqi
    rw [if_neg (by simp)]
    simp only [List.foldl_cons, List.foldl_nil, maxStep, h4]
    norm_num
  · have h1 : findSegment (55.45 : ℚ) pm25Table = none := by
      rw [pm25Table, findSegment, if_neg (by norm_num), findSegment, if_neg (by norm_num),
        findSegment, if_neg (by norm_num), findSegment, if_neg (by norm_num),
        findSegment, if_neg (by norm_num), findSegment, if_neg (by norm_num), findSegment]
    have h3 : subIndex pm25Table (55.45 : ℚ) = none := by
      unfold subIndex
      rw [h1]
      show (if lastHigh pm25Table < (55.45 : ℚ) then some 500 else none) = none
      rw [if_neg]
      simp only [lastHigh, pm25Table]
      norm_num
    have h4 : contrib ("pm25", some (55.45 : ℚ)) = none := by
      unfold contrib
      have : dictLookup breakpointTables "pm25" = some pm25Table := rfl
      rw [this]
      exact h3
    unfold calculate_aqi maxAqi
    rw [if_neg (by simp)]
    simp only [List.foldl_cons, List.foldl_nil, maxStep, h4]
    norm_num

/-- Claim C6 (amended): for every pollutant with a breakpoint table and every
pair of concentrations `c1 ≤ c2` of that pollutant (all other pollutants held
fixed), `calculate_aqi` is monotone **provided each concentration actually
produces a sub-index** — i.e. lies within some breakpoint row or above the
table's maximum.  Concentrations in the gaps between rows contribute no
sub-index and break monotonicity (see the counterexample). -/
theorem C6_monotone_amended {name : String} {table : List Segment}
    (htab : dictLookup breakpointTables name = some table)
    (pre post : List (String × Option ℚ)) {c1 c2 : ℚ} (hc : c1 ≤ c2)
    (h1 : (subIndex table c1).isSome) (h2 : (subIndex table c2).isSome) :
    calculate_aqi (pre ++ (name, some c1) :: post) ≤
      calculate_aqi (pre ++ (name, some c2) :: post) := by
  obtain ⟨a1, ha1⟩ := Option.isSome_iff_exists.mp h1
  obtain ⟨a2, ha2⟩ := Option.isSome_iff_exists.mp h2
  have hwf := (table_of_lookup htab).1
  have hmono := subIndex_mono hwf hc ha1 ha2
  rw [calculate_aqi_eq, calculate_aqi_eq]
  apply max_le_max le_rfl
  unfold maxAqi
  rw [List.foldl_append, List.foldl_append]
  simp only [List.foldl_cons]
  apply foldl_maxStep_mono
  have hco1 : contrib (name, some c1) = some a1 := by
    unfold contrib
    rw [htab]
    exact ha1
  have hco2 : contrib (name, some c2) = some a2 := by
    unfold contrib
    rw [htab]
    exact ha2
  unfold maxStep
  rw [hco1, hco2]
  exact max_le_max le_rfl hmono

/-- Witness for the amended C6 at pm25 concentrations 6 ≤ 12 (both inside the
lowest row). -/
theorem C6_monotone_amended_witness :
    calculate_aqi [("pm25", some (6 : ℚ))] ≤ calculate_aqi [("pm25", some (12 : ℚ))] := by
  have hf1 : findSegment (6 : ℚ) pm25Table = some ⟨0, 12, 0, 50⟩ := by
    rw [pm25Table, findSegment, if_pos (by norm_num)]
  have hf2 : findSegment (12 : ℚ) pm25Table = some ⟨0, 12, 0, 50⟩ := by
    rw [pm25Table, findSegment, if_pos (by norm_num)]
  have hs1 : (subIndex pm25Table (6 : ℚ)).isSome := by
    unfold subIndex
    rw [hf1]
    rfl
  have hs2 : (subIndex pm25Table (12 : ℚ)).isSome := by
    unfold subIndex
    rw [hf2]
    rfl
  exact C6_monotone_amended
    (show dictLookup breakpointTables "pm25" = some pm25Table from rfl) [] []
    (by norm_num) hs1 hs2

/-- Claim C8 is false on the code: a concentration strictly below the lowest
pm25 row's lower bound (0.0), e.g. −1, matches **no** breakpoint row (the
check is `bp_low <= concentration <= bp_high`), is not above the table's
maximum, and therefore contributes no sub-index — it is *not* treated as
lying within the lowest segment (which would have yielded
`some (pyRound (interpAqi ⟨0, 12, 0, 50⟩ (−1)))`). -/
theorem C8_counterexample :
    (-1 : ℚ) < lowestLow pm25Table ∧
    subIndex pm25Table (-1 : ℚ) = none ∧
    subIndex pm25Table (-1 : ℚ) ≠ some (pyRound (interpAqi ⟨0, 12, 0, 50⟩ (-1 : ℚ))) := by
  have hf : findSegment (-1 : ℚ) pm25Table = none := by
    rw [pm25Table, findSegment, if_neg (by norm_num), findSegment, if_neg (by norm_num),
      findSegment, if_neg (by norm_num), findSegment, if_neg (by norm_num),
      findSegment, if_neg (by norm_num), findSegment, if_neg (by norm_num), findSegment]
  have hnone : subIndex pm25Table (-1 : ℚ) = none := by
    unfold subIndex
    rw [hf]
    show (if lastHigh pm25Table < (-1 : ℚ) then some 500 else none) = none
    rw [if_neg]
    simp only [lastHigh, pm25Table]
    norm_num
  refine ⟨?_, hnone, ?_⟩
  · simp only [lowestLow, pm25Table]
    norm_num
  · rw [hnone]
    simp

/-- Claim C8 (amended): a concentration strictly below the lowest row's lower
bound of any breakpoint table matches no row and contributes **no**
sub-index; for a pollutant set containing only that pollutant,
`calculate_aqi` falls back to the 50 floor. -/
theorem C8_below_lowest_amended {name : String} {table : List Segment}
    (htab : dictLookup breakpointTables name = some table) {c : ℚ}
    (hc : c < lowestLow table) :
    subIndex table c = none ∧ calculate_aqi [(name, some c)] = 50 := by
  obtain ⟨hwf, hne⟩ := table_of_lookup htab
  have hnone := subIndex_none_of_lt_lowestLow hwf hne hc
  refine ⟨hnone, ?_⟩
  have hco : contrib (name, some c) = none := by
    unfold contrib
    rw [htab]
    exact hnone
  rw [calculate_aqi_eq]
  unfold maxAqi
  simp only [List.foldl_cons, List.foldl_nil, maxStep, hco]
  norm_num

/-- Witness for the amended C8 at pm25 and concentration −1. -/
theorem C8_below_lowest_amended_witness :
    subIndex pm25Table (-1 : ℚ) = none ∧ calculate_aqi [("pm25", some (-1 : ℚ))] = 50 :=
  C8_below_lowest_amended
    (show dictLookup breakpointTables "pm25" = some pm25Table from rfl)
    (by simp only [lowestLow, pm25Table]; norm_num)

/-- Claim C9: for every AQI value and weather dict, `get_health_advice`
appends the dispersal note to the general statement iff
`wind_speed_ms > 5.0`, appends the clearing note iff `precip_mm > 2.0`
(both, in that order, when both hold), and the four profile texts are those
of the empty-weather call — independent of the weather. -/
theorem C9_weather_modifiers (aqi : ℤ) (w : WeatherDict) :
    (get_health_advice aqi w).profiles = (get_health_advice aqi WeatherDict.empty).profiles ∧
    (get_health_advice aqi w).general =
      (get_health_advice aqi WeatherDict.empty).general ++
        (if 5 < w.wind_speed_ms.getD 0 then windNote else "") ++
        (if 2 < w.precip_mm.getD 0 then rainNote else "") := by
  have hempty : get_health_advice aqi WeatherDict.empty = ⟨baseGeneral aqi, baseProfiles aqi⟩ := by
    unfold get_health_advice WeatherDict.empty
    simp only [Option.getD_none]
    rw [if_neg (by norm_num), if_neg (by norm_num)]
  rw [hempty]
  unfold get_health_advice
  constructor
  · rfl
  · simp only
    split_ifs with h1 h2 h2 <;>
      simp [String.append_assoc, String.append_empty]

/-! ## Forecast lemmas and claims -/

theorem simpleAqi_nonneg (w : WeatherDict) (hour : ℕ) (noiseVal : ℚ) :
    0 ≤ simpleAqi w hour noiseVal := by
  unfold simpleAqi
  exact le_max_left 0 _

theorem simpleAqi_le_500 (w : WeatherDict) (hour : ℕ) (noiseVal : ℚ) :
    simpleAqi w hour noiseVal ≤ 500 := by
  unfold simpleAqi
  exact max_le (by norm_num) (min_le_left 500 _)

/-- Claim C3: for every history, weather dict, horizon in `[1, 48]`, current
time, model oracle and noise oracle, `predict_forecast` (a total function:
the embedded code raises no exception) returns exactly `hours` points, the
`i`-th point's timestamp is `now + (i + 1)` hours — strictly increasing,
starting one hour after now — and every AQI lies in `[0, 500]`, on both the
model path and the heuristic path. -/
theorem C3_forecast_contract (historical_data : List HistPoint) (weather_data : WeatherDict)
    (hours now : ℕ) (modelFit : Option (ℕ → ℚ)) (noise : ℕ → ℚ)
    (hlo : 1 ≤ hours) (hhi : hours ≤ 48) :
    (predict_forecast historical_data weather_data hours now modelFit noise).length = hours ∧
    (predict_forecast historical_data weather_data hours now modelFit noise).map
        ForecastPoint.t = (List.range hours).map (fun i => now + (i + 1)) ∧
    List.Pairwise (fun a b : ForecastPoint => a.t < b.t)
      (predict_forecast historical_data weather_data hours now modelFit noise) ∧
    (∀ pt ∈ predict_forecast historical_data weather_data hours now modelFit noise,
      0 ≤ pt.aqi ∧ pt.aqi ≤ 500) := by
  have hshape : ∀ (g : ℕ → ℤ),
      ((List.range hours).map fun i => (⟨now + (i + 1), g i⟩ : ForecastPoint)).length = hours ∧
      ((List.range hours).map fun i => (⟨now + (i + 1), g i⟩ : ForecastPoint)).map
          ForecastPoint.t = (List.range hours).map (fun i => now + (i + 1)) ∧
      List.Pairwise (fun a b : ForecastPoint => a.t < b.t)
        ((List.range hours).map fun i => (⟨now + (i + 1), g i⟩ : ForecastPoint)) := by
    intro g
    refine ⟨by simp, ?_, ?_⟩
    · rw [List.map_map]
      rfl
    · refine List.Pairwise.map _ (fun a b hab => ?_) (List.pairwise_lt_range hours)
      simpa using hab
  have hsimple : ∀ (noi : ℕ → ℚ),
      (simple_forecast weather_data hours now noi).length = hours ∧
      (simple_forecast weather_data hours now noi).map ForecastPoint.t =
        (List.range hours).map (fun i => now + (i + 1)) ∧
      List.Pairwise (fun a b : ForecastPoint => a.t < b.t)
        (simple_forecast weather_data hours now noi) ∧
      (∀ pt ∈ simple_forecast weather_data hours now noi, 0 ≤ pt.aqi ∧ pt.aqi ≤ 500) := by
    intro noi
    obtain ⟨hl, hm, hp⟩ :=
      hshape fun i => simpleAqi weather_data ((now + (i + 1)) % 24) (noi (i + 1))
    refine ⟨hl, hm, hp, ?_⟩
    intro pt hpt
    obtain ⟨i, _, rfl⟩ := List.mem_map.mp hpt
    exact ⟨simpleAqi_nonneg _ _ _, simpleAqi_le_500 _ _ _⟩
  unfold predict_forecast
  split_ifs with h1 h2
  · exact hsimple noise
  · exact hsimple noise
  · cases modelFit with
    | none => exact hsimple noise
    | some f =>
      obtain ⟨hl, hm, hp⟩ := hshape fun i => max 0 (min 500 (pyInt (f (i + 1))))
      refine ⟨hl, hm, hp, ?_⟩
      intro pt hpt
      obtain ⟨i, _, rfl⟩ := List.mem_map.mp hpt
      exact ⟨le_max_left 0 _, max_le (by norm_num) (min_le_left 500 _)⟩

/-- Witness for C3 at an empty history, empty weather dict, `hours = 24`. -/
theorem C3_forecast_contract_witness :
    (predict_forecast [] WeatherDict.empty 24 0 none fun _ => 0).length = 24 :=
  (C3_forecast_contract [] WeatherDict.empty 24 0 none (fun _ => 0)
    (by norm_num) (by norm_num)).1

theorem timeEffect_rush {h : ℕ} (hm : h ∈ [7, 8, 17, 18, 19]) : timeEffect h = 15 := by
  unfold timeEffect
  rw [if_pos hm]

theorem timeEffect_night {h : ℕ} (hm1 : h ∉ [7, 8, 17, 18, 19])
    (hm2 : h ∉ [10, 11, 12, 13, 14, 15]) : timeEffect h = -10 := by
  unfold timeEffect
  rw [if_neg hm1, if_neg hm2]

theorem clamp_shift25 {x : ℤ} (hx : 20 ≤ x) :
    max 0 (min 500 x) ≤ max 0 (min 500 (x + 25)) ∧
      (max 0 (min 500 x) < 500 → max 0 (min 500 x) < max 0 (min 500 (x + 25))) := by
  constructor <;> simp only [max_def, min_def] <;> split_ifs <;> omega

/-- With zero noise, the overnight heuristic value is at most the rush-hour
one, strictly below whenever the overnight value sits below the 500 cap. -/
theorem simpleAqi_rush_night (w : WeatherDict) {h1 h2 : ℕ}
    (e1 : timeEffect h1 = 15) (e2 : timeEffect h2 = -10) :
    simpleAqi w h2 0 ≤ simpleAqi w h1 0 ∧
      (simpleAqi w h2 0 < 500 → simpleAqi w h2 0 < simpleAqi w h1 0) := by
  simp only [simpleAqi]
  rw [e1, e2]
  have hwe : min 20 (w.wind_speed_ms.getD 3 * 3) ≤ 20 := min_le_left _ _
  have hre : min 15 (w.precip_mm.getD 0 * 5) ≤ 15 := min_le_left _ _
  have hte : (0 : ℚ) ≤ max 0 ((w.temp_c.getD 20 - 25) * 0.5) := le_max_left _ _
  have hshift : 65 + -(min 20 (w.wind_speed_ms.getD 3 * 3))
      + -(min 15 (w.precip_mm.getD 0 * 5)) + max 0 ((w.temp_c.getD 20 - 25) * 0.5)
      + 15 + 0 =
      (65 + -(min 20 (w.wind_speed_ms.getD 3 * 3)) + -(min 15 (w.precip_mm.getD 0 * 5))
        + max 0 ((w.temp_c.getD 20 - 25) * 0.5) + -10 + 0) + ((25 : ℤ) : ℚ) := by
    push_cast
    ring
  have hpos : (20 : ℚ) ≤ 65 + -(min 20 (w.wind_speed_ms.getD 3 * 3))
      + -(min 15 (w.precip_mm.getD 0 * 5)) + max 0 ((w.temp_c.getD 20 - 25) * 0.5)
      + -10 + 0 := by
    linarith
  have hfl : (20 : ℤ) ≤ ⌊65 + -(min 20 (w.wind_speed_ms.getD 3 * 3))
      + -(min 15 (w.precip_mm.getD 0 * 5)) + max 0 ((w.temp_c.getD 20 - 25) * 0.5)
      + -10 + 0⌋ := Int.le_floor.mpr (by push_cast; linarith)
  rw [hshift]
  rw [pyInt_eq_floor (by linarith), pyInt_eq_floor (by push_cast; linarith)]
  rw [Int.floor_add_int]
  exact clamp_shift25 hfl

/-- Claim C7 is false as stated: with zero noise, wind 0.5 m/s, no rain,
20 °C, the first forecast hour after 6:00 is the rush hour 7, and the
claim's real-valued formula evaluates to
`clamp(65 − 1.5 − 0 + 0 + 15) = 78.5`, while the code first truncates with
`int(...)` and stores 78 — the point's AQI does not equal the claimed
clamp value. -/
theorem C7_counterexample :
    simple_forecast ⟨some 0, some (1/2), some 20, none, none⟩ 1 6 (fun _ => 0) =
      [⟨7, 78⟩] ∧
    max (0 : ℚ) (min 500 (65 - min 20 ((1/2 : ℚ) * 3) - min 15 ((0 : ℚ) * 5)
      + max 0 (((20 : ℚ) - 25) * 0.5) + 15)) = 157/2 ∧
    ((78 : ℤ) : ℚ) ≠ 157/2 := by
  have hfl : ⌊(157/2 : ℚ)⌋ = 78 := by
    rw [Int.floor_eq_iff]
    norm_num
  have hval : simpleAqi ⟨some 0, some (1/2), some 20, none, none⟩ 7 0 = 78 := by
    simp only [simpleAqi, timeEffect, Option.getD_some]
    norm_num
    rw [pyInt_eq_floor (by norm_num), hfl]
    norm_num
  refine ⟨?_, by norm_num, by norm_num⟩
  simp only [simple_forecast, List.range_succ, List.range_zero, List.nil_append,
    List.map_cons, List.map_nil]
  norm_num [hval]

/-- Claim C7 (amended): with zero noise every heuristic point's AQI equals
`clamp_[0,500](int(65 − min(20, wind·3) − min(15, precip·5) +
max(0, (temp−25)·0.5) + t))` — the sum is truncated to an integer *before*
clamping — with `t = +15` for hours 7, 8, 17, 18, 19, `+5` for 10–15 and
`−10` otherwise; and for identical weather a rush-hour point scores at
least an overnight point, strictly whenever the overnight point is below
the 500 cap (at the cap both clamp to 500). -/
theorem C7_heuristic_amended (w : WeatherDict) (hours now : ℕ) :
    (∀ pt ∈ simple_forecast w hours now (fun _ => 0),
      pt.aqi = max 0 (min 500 (pyInt (65 - min 20 (w.wind_speed_ms.getD 3 * 3)
        - min 15 (w.precip_mm.getD 0 * 5) + max 0 ((w.temp_c.getD 20 - 25) * 0.5)
        + (if pt.t % 24 ∈ [7, 8, 17, 18, 19] then (15 : ℚ)
           else if pt.t % 24 ∈ [10, 11, 12, 13, 14, 15] then 5 else -10))))) ∧
    (∀ hours2 now2 : ℕ, ∀ pt1 ∈ simple_forecast w hours now (fun _ => 0),
      ∀ pt2 ∈ simple_forecast w hours2 now2 (fun _ => 0),
      pt1.t % 24 ∈ [7, 8, 17, 18, 19] →
      pt2.t % 24 ∉ [7, 8, 17, 18, 19] → pt2.t % 24 ∉ [10, 11, 12, 13, 14, 15] →
      pt2.aqi ≤ pt1.aqi ∧ (pt2.aqi < 500 → pt2.aqi < pt1.aqi)) := by
  constructor
  · intro pt hpt
    obtain ⟨i, _, rfl⟩ := List.mem_map.mp hpt
    simp only [simpleAqi, timeEffect]
    congr 3
    ring
  · intro hours2 now2 pt1 hpt1 pt2 hpt2 hrush hn1 hn2
    obtain ⟨i, _, rfl⟩ := List.mem_map.mp hpt1
    obtain ⟨j, _, rfl⟩ := List.mem_map.mp hpt2
    exact simpleAqi_rush_night w (timeEffect_rush hrush) (timeEffect_night hn1 hn2)

/-- Witness for the amended C7: with calm weather (wind 0, rain 0, 20 °C)
the rush-hour point at 7:00 scores 80 and the overnight point at 22:00
scores 55; the theorem yields the strict comparison. -/
theorem C7_heuristic_amended_witness :
    (⟨22, 55⟩ : ForecastPoint).aqi < (⟨7, 80⟩ : ForecastPoint).aqi := by
  have h80 : simpleAqi ⟨some 0, some 0, some 20, none, none⟩ 7 0 = 80 := by
    simp only [simpleAqi, timeEffect, Option.getD_some]
    norm_num
    rw [show (80 : ℚ) = ((80 : ℤ) : ℚ) by norm_num, pyInt_intCast]
    norm_num [min_def, max_def]
  have h55 : simpleAqi ⟨some 0, some 0, some 20, none, none⟩ 22 0 = 55 := by
    simp only [simpleAqi, timeEffect, Option.getD_some]
    norm_num
    rw [show (55 : ℚ) = ((55 : ℤ) : ℚ) by norm_num, pyInt_intCast]
    norm_num [min_def, max_def]
  have hlist1 : simple_forecast ⟨some 0, some 0, some 20, none, none⟩ 1 6 (fun _ => 0) =
      [⟨7, 80⟩] := by
    simp only [simple_forecast, List.range_succ, List.range_zero, List.nil_append,
      List.map_cons, List.map_nil]
    norm_num [h80]
  have hlist2 : simple_forecast ⟨some 0, some 0, some 20, none, none⟩ 1 21 (fun _ => 0) =
      [⟨22, 55⟩] := by
    simp only [simple_forecast, List.range_succ, List.range_zero, List.nil_append,
      List.map_cons, List.map_nil]
    norm_num [h55]
  have hmem1 : (⟨7, 80⟩ : ForecastPoint) ∈
      simple_forecast ⟨some 0, some 0, some 20, none, none⟩ 1 6 (fun _ => 0) := by
    rw [hlist1]
    exact List.mem_singleton.mpr rfl
  have hmem2 : (⟨22, 55⟩ : ForecastPoint) ∈
      simple_forecast ⟨some 0, some 0, some 20, none, none⟩ 1 21 (fun _ => 0) := by
    rw [hlist2]
    exact List.mem_singleton.mpr rfl
  exact ((C7_heuristic_amended ⟨some 0, some 0, some 20, none, none⟩ 1 6).2 1 21
    ⟨7, 80⟩ hmem1 ⟨22, 55⟩ hmem2 (by decide) (by decide) (by decide)).2 (by decide)

/-- Claim C4: for every pollutant present in both source dicts (ground keys
unique, as Python dict keys are), the merged reading's value is
`0.4 * satellite + 0.6 * ground` and its source tags are
`["TEMPO", "OpenAQ"]` in that order (unit kept from the satellite entry);
a pollutant absent from the satellite-derived dict is inserted fresh with
unit `µg/m³` and tag `["OpenAQ"]` only. -/
theorem C4_merge_policy {tempo_dict : List (String × Option ℚ)}
    {openaq_pollutants : List (String × ℚ)} {p : String} {sv gv : ℚ}
    (hnd : (openaq_pollutants.map Prod.fst).Nodup)
    (hg : dictLookup openaq_pollutants p = some gv) :
    (dictLookup tempo_dict p = some (some sv) →
      dictLookup (mergePollutants tempo_dict openaq_pollutants) p =
        some ⟨0.4 * sv + 0.6 * gv,
          if p ≠ "hcho" then "µg/m³" else "ppb", ["TEMPO", "OpenAQ"]⟩) ∧
    (dictLookup (tempoMerge tempo_dict) p = none →
      dictLookup (mergePollutants tempo_dict openaq_pollutants) p =
        some ⟨gv, "µg/m³", ["OpenAQ"]⟩) := by
  constructor
  · intro ht
    have h1 := tempoMerge_lookup_some ht
    have h2 := overlayGround_lookup_merge hnd hg h1
    unfold mergePollutants
    rw [h2]
    simp only [Option.some.injEq, PollutantData.mk.injEq]
    refine ⟨by ring, trivial, rfl⟩
  · intro ht
    exact overlayGround_lookup_fresh hnd hg ht

/-- Witness for C4: satellite NO2 = 10 and ground NO2 = 20 merge to
`0.4·10 + 0.6·20 = 16.0`, tagged `["TEMPO", "OpenAQ"]`. -/
theorem C4_merge_policy_witness :
    dictLookup (mergePollutants [("no2", some (10 : ℚ))] [("no2", (20 : ℚ))]) "no2" =
      some ⟨0.4 * 10 + 0.6 * 20, "µg/m³", ["TEMPO", "OpenAQ"]⟩ ∧
    (0.4 * (10 : ℚ) + 0.6 * 20 = 16) := by
  constructor
  · have hnd : (([("no2", (20 : ℚ))]).map Prod.fst).Nodup := by simp
    have hg : dictLookup [("no2", (20 : ℚ))] "no2" = some 20 := by simp [dictLookup]
    have ht : dictLookup [("no2", some (10 : ℚ))] "no2" = some (some 10) := by
      simp [dictLookup]
    have h := (C4_merge_policy hnd hg).1 ht
    simpa using h
  · norm_num

/-- Claim C5 is false in its last conjunct: with TTL 900, `set("k", 1)` at
time 0 followed by `get("k")` at time 901 returns absent **and already
lazily deletes the entry** (size drops to 0 at the `get`); the
`cleanup_expired()` call made after that `get` finds nothing, returns 0 and
leaves `size()` unchanged — it does not decrement `size()`. -/
theorem C5_counterexample :
    (CacheService.get (CacheService.set ⟨[], [], 900⟩ 0 "k" (1 : ℤ)) 901 "k").1 = none ∧
    CacheService.size (CacheService.get (CacheService.set ⟨[], [], 900⟩ 0 "k" (1 : ℤ))
      901 "k").2 = 0 ∧
    (CacheService.cleanup_expired
      (CacheService.get (CacheService.set ⟨[], [], 900⟩ 0 "k" (1 : ℤ)) 901 "k").2 901).1 = 0 ∧
    CacheService.size (CacheService.cleanup_expired
      (CacheService.get (CacheService.set ⟨[], [], 900⟩ 0 "k" (1 : ℤ)) 901 "k").2 901).2 =
      CacheService.size (CacheService.get (CacheService.set ⟨[], [], 900⟩ 0 "k" (1 : ℤ))
        901 "k").2 := by
  have hset : CacheService.set (⟨[], [], 900⟩ : CacheState ℤ) 0 "k" 1 =
      ⟨[("k", 1)], [("k", 0)], 900⟩ := rfl
  have hget : CacheService.get (⟨[("k", 1)], [("k", 0)], 900⟩ : CacheState ℤ) 901 "k" =
      (none, ⟨[], [], 900⟩) := by
    unfold CacheService.get
    simp only [dictLookup, Option.getD_some]
    norm_num
    simp [dictErase]
  rw [hset, hget]
  refine ⟨rfl, rfl, ?_, ?_⟩ <;> rfl

/-- Claim C5 (amended): starting from an empty cache, `set(k, v)` at `now`
then `get(k)` at any `t1` with `t1 − now ≤ ttl` returns `v`; at any `t2`
with `t2 − now > ttl` the `get` returns absent and itself deletes the entry,
decrementing `size()` by one; a `cleanup_expired()` made after that `get`
removes nothing further — it returns 0 and leaves the state unchanged. -/
theorem C5_ttl_amended {V : Type} (v : V) (ttl : ℚ) (k : String) (now t1 t2 : ℚ)
    (h1 : t1 - now ≤ ttl) (h2 : ttl < t2 - now) :
    (CacheService.get (CacheService.set ⟨[], [], ttl⟩ now k v) t1 k).1 = some v ∧
    (CacheService.get (CacheService.set ⟨[], [], ttl⟩ now k v) t2 k).1 = none ∧
    CacheService.size (CacheService.get (CacheService.set ⟨[], [], ttl⟩ now k v) t2 k).2 + 1 =
      CacheService.size (CacheService.set ⟨[], [], ttl⟩ now k v) ∧
    CacheService.cleanup_expired
        (CacheService.get (CacheService.set ⟨[], [], ttl⟩ now k v) t2 k).2 t2 =
      (0, (CacheService.get (CacheService.set ⟨[], [], ttl⟩ now k v) t2 k).2) := by
  have hset : CacheService.set (⟨[], [], ttl⟩ : CacheState V) now k v =
      ⟨[(k, v)], [(k, now)], ttl⟩ := rfl
  have hlook : dictLookup [(k, v)] k = some v := by simp [dictLookup]
  have hlookt : dictLookup [(k, now)] k = some now := by simp [dictLookup]
  have hget1 : CacheService.get (⟨[(k, v)], [(k, now)], ttl⟩ : CacheState V) t1 k =
      (some v, ⟨[(k, v)], [(k, now)], ttl⟩) := by
    unfold CacheService.get
    simp only [hlook, hlookt, Option.getD_some]
    rw [if_neg (not_lt.mpr (by linarith))]
  have hget2 : CacheService.get (⟨[(k, v)], [(k, now)], ttl⟩ : CacheState V) t2 k =
      (none, ⟨[], [], ttl⟩) := by
    unfold CacheService.get
    simp only [hlook, hlookt, Option.getD_some]
    rw [if_pos (by linarith)]
    simp [dictErase]
  rw [hset, hget1, hget2]
  refine ⟨rfl, rfl, ?_, ?_⟩ <;> rfl

/-- Witness for the amended C5 with TTL 900, set at time 0, reads at times
100 and 901. -/
theorem C5_ttl_amended_witness :
    (CacheService.get (CacheService.set ⟨[], [], 900⟩ 0 "k" (7 : ℤ)) 100 "k").1 = some 7 :=
  (C5_ttl_amended (7 : ℤ) 900 "k" 0 100 901 (by norm_num) (by norm_num)).1

/-- Claim C10: every `CacheService` operation preserves the invariant that
`_cache` and `_timestamps` hold exactly the same keys (without duplicates);
consequently `size()` equals the number of entries holding a timestamp, and
`cleanup_expired()`'s return value equals the decrease in `size()` it
causes. -/
theorem C10_cache_invariants {V : Type} (s : CacheState V) (now : ℚ) (k : String) (v : V)
    (h : CacheService.Inv s) :
    CacheService.Inv (CacheService.set s now k v) ∧
    CacheService.Inv (CacheService.get s now k).2 ∧
    CacheService.Inv (CacheService.clear s) ∧
    CacheService.Inv (CacheService.cleanup_expired s now).2 ∧
    CacheService.size s = s.timestamps.length ∧
    (CacheService.cleanup_expired s now).1 +
      CacheService.size (CacheService.cleanup_expired s now).2 = CacheService.size s :=
  ⟨CacheService.set_inv h now k v, CacheService.get_inv h now k,
   CacheService.clear_inv s, CacheService.cleanup_expired_inv h now,
   CacheService.size_eq_timestamps h, CacheService.cleanup_expired_count h now⟩

/-- Witness for C10 on a one-entry cache satisfying the invariant. -/
theorem C10_cache_invariants_witness :
    CacheService.size (⟨[("a", (1 : ℤ))], [("a", (0 : ℚ))], 900⟩ : CacheState ℤ) =
      (⟨[("a", (1 : ℤ))], [("a", (0 : ℚ))], 900⟩ : CacheState ℤ).timestamps.length ∧
    CacheService.Inv (CacheService.set
      (⟨[("a", (1 : ℤ))], [("a", (0 : ℚ))], 900⟩ : CacheState ℤ) 5 "b" 2) :=
  ⟨(C10_cache_invariants ⟨[("a", 1)], [("a", 0)], 900⟩ 5 "b" 2 ⟨rfl, by simp⟩).2.2.2.2.1,
   (C10_cache_invariants ⟨[("a", 1)], [("a", 0)], 900⟩ 5 "b" 2 ⟨rfl, by simp⟩).1⟩

/-- Claim C1 is false in its category conjunct: when all four adapters fail,
the AQI value is the neutral default 50, and `get_aqi_category 50` is
`"Good"` (the `aqi <= 50` band), not `"Moderate"`. -/
theorem C1_counterexample :
    (get_air_quality none none none none 24 0 none fun _ => 0).aqi.value = 50 ∧
    (get_air_quality none none none none 24 0 none fun _ => 0).aqi.category = "Good" ∧
    "Good" ≠ "Moderate" := by
  refine ⟨rfl, rfl, by decide⟩

/-- Claim C1 (amended): for `hours = 24` with all four adapter results
absent, the assembly path returns a record — the embedded pipeline is a
total function, no exception — with an empty merged pollutant dict, the
documented default weather `(0, 0, 20, 60, [])`, AQI value 50, category
`"Good"` (not `"Moderate"`: 50 falls in the `≤ 50` band), and a 24-point
heuristic forecast. -/
theorem C1_all_adapters_fail (now : ℕ) (modelFit : Option (ℕ → ℚ)) (noise : ℕ → ℚ) :
    (get_air_quality none none none none 24 now modelFit noise).pollutants = [] ∧
    (get_air_quality none none none none 24 now modelFit noise).weather = ⟨0, 0, 20, 60, []⟩ ∧
    (get_air_quality none none none none 24 now modelFit noise).aqi.value = 50 ∧
    (get_air_quality none none none none 24 now modelFit noise).aqi.category = "Good" ∧
    (get_air_quality none none none none 24 now modelFit noise).forecast_24h.length = 24 := by
  refine ⟨rfl, rfl, rfl, rfl, ?_⟩
  show (predict_forecast [] (toWeatherDict none) 24 now modelFit noise).length = 24
  unfold predict_forecast
  rw [if_pos (by simp)]
  simp [simple_forecast]
